import Mathlib

/-!
Verification of the CouchDB changes-feed client (src/CouchDBChangesStream.ts)
against its natural-language specification.

The development shallowly embeds the client's data model and control flow:

* JavaScript values that the client inspects (sequence tokens, the
  `heartbeat` option, booleans) become small inductive types together with
  the exact truthiness/strict-equality tests the source performs on them.
* `buildUrl`, the request-body/method selection, the heartbeat
  configuration and the backoff formula are direct functional translations
  of the corresponding expressions of the source.
* The continuous/eventsource byte-stream parser is modelled as an
  incremental UTF-8 decoder (a byte-at-a-time state machine, matching the
  semantics of `TextDecoder` with `stream: true`) feeding the source's
  newline-splitting / trimming / `event:`-`data:` loop.  `JSON.parse` of a
  single line is an injected parameter `parse : String → Option Change`,
  exactly as the transport `fetch` is injected in the source.
* The outer `fetchChanges` retry loop is modelled as a recursion over a
  finite script of transport events (one per issued request), producing the
  full observable trace: issued requests (with the cursor used for each),
  yielded records (with the cursor value at the moment of the yield),
  retry events (counter and delay) and the final outcome.
-/

/-- Sequence token as it appears in JSON: `seq : string | number`.
Numbers are modelled as integers (CouchDB sequence numbers are integral). -/
inductive SeqVal where
  | str (s : String)
  | num (n : Int)
deriving DecidableEq, Repr

/-- JavaScript truthiness of a sequence token: `""` and `0` are falsy.
Used by the source's `if (data.last_seq)` check. -/
def SeqVal.truthy : SeqVal → Bool
  | .str s => s ≠ ""
  | .num n => n ≠ 0

/-- JavaScript `toString()` of a sequence token (used by
`url.searchParams.set("since", this.activeSeq.toString())`). -/
def SeqVal.jsToString : SeqVal → String
  | .str s => s
  | .num n => toString n

/-- A change record: `{seq, id, changes: [{rev}], deleted?, doc?}`. -/
structure Change where
  seq : SeqVal
  id : String
  changes : List String
  deleted : Option Bool := none
  doc : Option String := none
deriving DecidableEq, Repr

/-- The `heartbeat` option value: `boolean | number`. -/
inductive HeartbeatVal where
  | bool (b : Bool)
  | num (n : Int)
deriving DecidableEq, Repr

/-- The `feed` option value. -/
inductive Feed where
  | normal
  | longpoll
  | continuous
  | eventsource
deriving DecidableEq, Repr

/-- Serialization of the `feed` value for the query string. -/
def Feed.jsToString : Feed → String
  | .normal => "normal"
  | .longpoll => "longpoll"
  | .continuous => "continuous"
  | .eventsource => "eventsource"

/-- The recognized configuration options (`CouchDBChangesOptions`), minus
`abortController` and `fetch` which the constructor strips off before
storing `this.options`.  `none` models an absent (`undefined`) field. -/
structure CouchDBChangesOptions where
  since : Option SeqVal := none
  filter : Option String := none
  doc_ids : Option (List String) := none
  selector : Option (List (String × String)) := none
  conflicts : Option Bool := none
  descending : Option Bool := none
  heartbeat : Option HeartbeatVal := none
  include_docs : Option Bool := none
  attachments : Option Bool := none
  att_encoding_info : Option Bool := none
  limit : Option Int := none
  style : Option String := none
  timeout : Option Int := none
  seq_interval : Option Int := none
  feed : Option Feed := none
  live : Option Bool := none
deriving DecidableEq, Repr

namespace CouchDB

open SeqVal

/-- JS `value.toString()` for a boolean. -/
def boolStr (b : Bool) : String := if b then "true" else "false"

/-- JS `value.toString()` for the heartbeat option. -/
def HeartbeatVal.jsToString : HeartbeatVal → String
  | .bool b => boolStr b
  | .num n => toString n

/-- One query entry when the serialized value is present.  The source
skips entries with `value === undefined || value === ""`; the per-field
serializers below return `none` exactly in those cases. -/
def optEntry (k : String) : Option String → List (String × String)
  | some s => [(k, s)]
  | none => []

/-- Serialize the `since` option: skipped when absent or the empty string
(`value !== ""`); a numeric `0` is kept (strict inequality with `""`). -/
def sinceParam (o : CouchDBChangesOptions) : Option String :=
  match o.since with
  | some (.str s) => if s = "" then none else some s
  | some (.num n) => some (toString n)
  | none => none

/-- Serialize a plain string option, skipping `""`. -/
def strParam : Option String → Option String
  | some s => if s = "" then none else some s
  | none => none

/-- The query entries built by `buildUrl`'s `Object.entries(this.options)`
loop: every defined, non-`""` option except `doc_ids`, `selector` and
`live`, in the declaration order of the options object. -/
def buildQueryBase (o : CouchDBChangesOptions) : List (String × String) :=
  optEntry "since" (sinceParam o) ++
  optEntry "filter" (strParam o.filter) ++
  optEntry "conflicts" (o.conflicts.map boolStr) ++
  optEntry "descending" (o.descending.map boolStr) ++
  optEntry "heartbeat" (o.heartbeat.map HeartbeatVal.jsToString) ++
  optEntry "include_docs" (o.include_docs.map boolStr) ++
  optEntry "attachments" (o.attachments.map boolStr) ++
  optEntry "att_encoding_info" (o.att_encoding_info.map boolStr) ++
  optEntry "limit" (o.limit.map toString) ++
  optEntry "style" (strParam o.style) ++
  optEntry "timeout" (o.timeout.map toString) ++
  optEntry "seq_interval" (o.seq_interval.map toString) ++
  optEntry "feed" (o.feed.map Feed.jsToString)

/-- `URLSearchParams.set`: replace the value of the first entry with the
given key, delete any later entries with that key, or append when absent. -/
def searchParamsSet : List (String × String) → String → String →
    List (String × String)
  | [], k, v => [(k, v)]
  | (k', v') :: rest, k, v =>
    if k' = k then (k, v) :: rest.filter (fun p => p.1 ≠ k)
    else (k', v') :: searchParamsSet rest k v

/-- `buildUrl`: the serialized query of the request, given the current
cursor.  `since` is overridden via `searchParams.set` whenever
`this.activeSeq !== undefined`. -/
def buildUrl (o : CouchDBChangesOptions) (activeSeq : Option SeqVal) :
    List (String × String) :=
  match activeSeq with
  | some v => searchParamsSet (buildQueryBase o) "since" v.jsToString
  | none => buildQueryBase o

/-- Look up a query parameter (first occurrence), as a URL consumer would. -/
def paramsGet (q : List (String × String)) (k : String) : Option String :=
  (q.find? (fun p => p.1 = k)).map (fun p => p.2)

/-- The request body: `{doc_ids}` or `{selector}` or absent. -/
inductive ReqBody where
  | docIds (ids : List String)
  | sel (s : List (String × String))
deriving DecidableEq, Repr

/-- `Array.isArray(this.options.doc_ids) && this.options.doc_ids.length > 0`. -/
def hasDocIds (o : CouchDBChangesOptions) : Bool :=
  match o.doc_ids with
  | some l => l.length > 0
  | none => false

/-- `this.options.selector && typeof this.options.selector === "object"`:
any defined selector is an object and is truthy in JS (even `{}`). -/
def hasSelector (o : CouchDBChangesOptions) : Bool :=
  o.selector.isSome

/-- The `requestBody` expression of `fetchChanges`. -/
def requestBody (o : CouchDBChangesOptions) : Option ReqBody :=
  if hasDocIds o then (o.doc_ids.map ReqBody.docIds)
  else if hasSelector o then (o.selector.map ReqBody.sel)
  else none

/-- HTTP method. -/
inductive Method where
  | GET
  | POST
deriving DecidableEq, Repr

/-- `const method = body ? "POST" : "GET"` (the `JSON.stringify` of a
defined body object is a non-empty, hence truthy, string). -/
def reqMethod (o : CouchDBChangesOptions) : Method :=
  if (requestBody o).isSome then .POST else .GET

/-- One issued HTTP request, as observable by the transport. -/
structure Request where
  method : Method
  query : List (String × String)
  body : Option ReqBody
deriving DecidableEq, Repr

/-- The request `fetchChanges` issues from a given cursor state. -/
def mkRequest (o : CouchDBChangesOptions) (activeSeq : Option SeqVal) :
    Request :=
  ⟨reqMethod o, buildUrl o activeSeq, requestBody o⟩

/-- Feed-mode predicates of `fetchChanges` (`isNormal` is true when `feed`
is `"normal"` or unset). -/
def isNormalCfg (o : CouchDBChangesOptions) : Bool :=
  o.feed = some .normal || o.feed = none

/-- `isLongpoll`. -/
def isLongpollCfg (o : CouchDBChangesOptions) : Bool :=
  o.feed = some .longpoll

/-- `isContinuous`. -/
def isContinuousCfg (o : CouchDBChangesOptions) : Bool :=
  o.feed = some .continuous

/-- `isEventsource`. -/
def isEventsourceCfg (o : CouchDBChangesOptions) : Bool :=
  o.feed = some .eventsource

/-- `usesHeartbeat = (isContinuous || isEventsource) && this.options.heartbeat !== 0`.
The strict inequality `!== 0` is false only for the numeric value `0`; the
boolean `false` is not strictly equal to `0`. -/
def usesHeartbeat (o : CouchDBChangesOptions) : Bool :=
  (isContinuousCfg o || isEventsourceCfg o) &&
    o.heartbeat ≠ some (.num 0)

/-- `typeof this.options.heartbeat === "number" ? this.options.heartbeat : 60000`. -/
def heartbeatInterval (o : CouchDBChangesOptions) : ℚ :=
  match o.heartbeat with
  | some (.num n) => (n : ℚ)
  | _ => 60000

/-- `Math.max(heartbeatInterval * 0.1, 1000)`. -/
def timeoutBuffer (o : CouchDBChangesOptions) : ℚ :=
  max (heartbeatInterval o * (1 / 10)) 1000

/-- `adjustedTimeout = heartbeatInterval + timeoutBuffer`. -/
def adjustedTimeout (o : CouchDBChangesOptions) : ℚ :=
  heartbeatInterval o + timeoutBuffer o

/-- `Math.min(2 ** retryCount * 100, 30000)`. -/
def backoffBase (retryCount : Nat) : ℚ :=
  min ((2 : ℚ) ^ retryCount * 100) 30000

/-- `delay = backoff + jitter` where `jitter = Math.random() * 100` and
`r` stands for the `Math.random()` draw. -/
def retryDelay (retryCount : Nat) (r : ℚ) : ℚ :=
  backoffBase retryCount + r * 100

/-! ### Incremental UTF-8 decoding (`TextDecoder` with `stream: true`)

The WHATWG UTF-8 decoder is a byte-at-a-time state machine; `decode(chunk,
{stream: true})` runs it over the chunk's bytes and keeps the state for the
next call, which is what makes splitting a multi-byte character across
chunks lossless. -/

/-- Decoder state per the WHATWG encoding standard. -/
structure Utf8State where
  codePoint : Nat
  bytesNeeded : Nat
  bytesSeen : Nat
  lower : Nat
  upper : Nat
deriving DecidableEq, Repr

/-- Initial decoder state. -/
def utf8Init : Utf8State := ⟨0, 0, 0, 0x80, 0xBF⟩

/-- U+FFFD replacement character. -/
def replacement : Char := Char.ofNat 0xFFFD

/-- Handle a byte in the initial state (no continuation pending). -/
def utf8Start (b : Nat) : Utf8State × List Char :=
  if b ≤ 0x7F then (utf8Init, [Char.ofNat b])
  else if 0xC2 ≤ b ∧ b ≤ 0xDF then
    ({ utf8Init with bytesNeeded := 1, codePoint := b &&& 0x1F }, [])
  else if 0xE0 ≤ b ∧ b ≤ 0xEF then
    (⟨b &&& 0xF, 2, 0, if b = 0xE0 then 0xA0 else 0x80,
      if b = 0xED then 0x9F else 0xBF⟩, [])
  else if 0xF0 ≤ b ∧ b ≤ 0xF4 then
    (⟨b &&& 0x7, 3, 0, if b = 0xF0 then 0x90 else 0x80,
      if b = 0xF4 then 0x8F else 0xBF⟩, [])
  else (utf8Init, [replacement])

/-- One step of the decoder: consume one byte, emit zero or more
characters.  On a malformed continuation the byte is reprocessed in the
initial state after emitting a replacement character, as the standard
prescribes. -/
def utf8Step (s : Utf8State) (b : Nat) : Utf8State × List Char :=
  if s.bytesNeeded = 0 then utf8Start b
  else if s.lower ≤ b ∧ b ≤ s.upper then
    let cp := (s.codePoint <<< 6) ||| (b &&& 0x3F)
    let seen := s.bytesSeen + 1
    if seen = s.bytesNeeded then (utf8Init, [Char.ofNat cp])
    else (⟨cp, s.bytesNeeded, seen, 0x80, 0xBF⟩, [])
  else
    let (s', cs) := utf8Start b
    (s', replacement :: cs)

/-- Run the decoder over a chunk of bytes. -/
def utf8Decode (s : Utf8State) : List Nat → Utf8State × List Char
  | [] => (s, [])
  | b :: bs =>
    let (s1, cs) := utf8Step s b
    let (s2, cs2) := utf8Decode s1 bs
    (s2, cs ++ cs2)

/-! ### Line buffering of the continuous / eventsource loop -/

/-- Whitespace as stripped by JavaScript `String.prototype.trim`. -/
def jsIsWhite (c : Char) : Bool :=
  c = ' ' || c = '\t' || c = '\n' || c = '\r' || c.val = 11 || c.val = 12 ||
    c.val = 0xA0 || c.val = 0xFEFF || c.val = 0x1680 ||
    (0x2000 ≤ c.val && c.val ≤ 0x200A) || c.val = 0x2028 ||
    c.val = 0x2029 || c.val = 0x202F || c.val = 0x205F || c.val = 0x3000

/-- JavaScript `trim()`: strip leading and trailing whitespace. -/
def jsTrim (l : List Char) : List Char :=
  ((l.dropWhile jsIsWhite).reverse.dropWhile jsIsWhite).reverse

/-- `buffer.indexOf("\n")`, as an index when found. -/
def nlIdx : List Char → Option Nat
  | [] => none
  | c :: cs => if c = '\n' then some 0 else (nlIdx cs).map (· + 1)

/-- `buffer.indexOf("\n", pos)`: JavaScript semantics, `-1` when absent. -/
def jsIndexOfFrom (l : List Char) (pos : Nat) : Int :=
  match nlIdx (l.drop pos) with
  | some j => ((pos + j : Nat) : Int)
  | none => -1

/-- How the parse loop of a single read ends. -/
inductive Halt where
  | clean
  | errorParse (line : String)
deriving DecidableEq, Repr

/-- Result of draining the newline loop over the current buffer: either
every complete line was consumed and reading continues with the remaining
partial line, or the generator returned / threw. -/
inductive LineStep where
  | more (buffer : List Char)
  | stop (h : Halt)
deriving DecidableEq, Repr

/-- The `while ((newlineIndex = buffer.indexOf("\n")) >= 0)` loop of
`fetchChanges`, for one buffer state: extract and trim each line, apply the
eventsource `event:`/`data:` pre-filter, skip blank lines (terminating when
`done`), JSON-parse non-blank lines (`parse` injected), and on a parse
failure rethrow unless `buffer.indexOf("\n", newlineIndex)` is `0` (the
source's guard, kept verbatim).  Returns the records emitted plus how the
loop ended. -/
def processBuffer (isES : Bool) (parse : String → Option Change)
    (ab done : Bool) (buf : List Char) : List Change × LineStep :=
  match h : nlIdx buf with
  | none => ([], .more buf)
  | some i =>
    if ab then ([], .stop .clean)
    else
      let line0 := jsTrim (buf.take i)
      let rest := buf.drop (i + 1)
      if isES && "event:".toList.isPrefixOf line0 then
        processBuffer isES parse ab done rest
      else
        let line := if isES && "data:".toList.isPrefixOf line0 then
          line0.drop 5 else line0
        if jsTrim line = [] then
          if done then ([], .stop .clean)
          else processBuffer isES parse ab done rest
        else
          match parse (String.mk line) with
          | some c =>
            let (rs, st) := processBuffer isES parse ab done rest
            (c :: rs, st)
          | none =>
            if jsIndexOfFrom rest i ≠ 0 then
              ([], .stop (.errorParse (String.mk line)))
            else processBuffer isES parse ab done rest
termination_by buf.length
decreasing_by
  all_goals
    simp only [List.length_drop]
    have hi : i < buf.length := by
      clear * - h
      induction buf generalizing i with
      | nil => simp [nlIdx] at h
      | cons c cs ih =>
        simp only [nlIdx] at h
        split at h
        · cases h; simp
        · cases hn : nlIdx cs with
          | none => rw [hn] at h; simp at h
          | some j =>
            rw [hn] at h
            simp only [Option.map_some'] at h
            cases h
            have := ih j hn
            simpa using Nat.succ_lt_succ this
    omega

/-- Parser state carried across reads: decoder state plus the pending
partial line. -/
structure EngSt where
  dec : Utf8State
  buffer : List Char
deriving DecidableEq, Repr

/-- The read loop of `fetchChanges` for continuous/eventsource feeds: the
chunk list models the successive `reader.read()` results (each with
`done: false`), followed by the final read that reports `done: true` with
no bytes, after which any complete lines still buffered are handled with
`done` set and the loop returns. -/
def engineRun (isES : Bool) (parse : String → Option Change) (ab : Bool)
    (st : EngSt) : List (List Nat) → List Change × Halt
  | [] =>
    if ab then ([], .clean)
    else
      match processBuffer isES parse ab true st.buffer with
      | (rs, .more _) => (rs, .clean)
      | (rs, .stop h) => (rs, h)
  | chunk :: cs =>
    if ab then ([], .clean)
    else
      let (dec1, out) := utf8Decode st.dec chunk
      match processBuffer isES parse ab false (st.buffer ++ out) with
      | (rs, .more b) =>
        let (rs2, h) := engineRun isES parse ab ⟨dec1, b⟩ cs
        (rs ++ rs2, h)
      | (rs, .stop h) => (rs, h)

/-- A whole continuous/eventsource connection body, from the initial
decoder and an empty buffer. -/
def continuousRun (isES : Bool) (parse : String → Option Change)
    (chunks : List (List Nat)) : List Change × Halt :=
  engineRun isES parse false ⟨utf8Init, []⟩ chunks

/-! #### A structured view of the newline loop, used by the proofs

`splitNl` separates a buffer into its complete (newline-terminated) lines
and the trailing partial line; `runLines` performs the per-line actions of
the loop on that list.  `processBuffer_eq_runLines` below proves the
faithful loop equal to this composition. -/

/-- Split a buffer at newlines: complete lines (without the terminator) and
the trailing remainder. -/
def splitNl : List Char → List (List Char) × List Char
  | [] => ([], [])
  | c :: cs =>
    let (ls, r) := splitNl cs
    if c = '\n' then ([] :: ls, r)
    else
      match ls with
      | [] => ([], c :: r)
      | l :: ls' => ((c :: l) :: ls', r)

/-- Rebuild a buffer from complete lines and a remainder. -/
def joinLines : List (List Char) → List Char → List Char
  | [], r => r
  | l :: ls, r => l ++ '\n' :: joinLines ls r

/-- Per-line processing of the loop over the complete lines only.
`none` means every line was consumed and reading continues. -/
def runLines (isES : Bool) (parse : String → Option Change)
    (ab done : Bool) : List (List Char) → List Change × Option Halt
  | [] => ([], none)
  | l0 :: ls =>
    if ab then ([], some .clean)
    else
      let line0 := jsTrim l0
      if isES && "event:".toList.isPrefixOf line0 then
        runLines isES parse ab done ls
      else
        let line := if isES && "data:".toList.isPrefixOf line0 then
          line0.drop 5 else line0
        if jsTrim line = [] then
          if done then ([], some .clean)
          else runLines isES parse ab done ls
        else
          match parse (String.mk line) with
          | some c =>
            let (rs, h) := runLines isES parse ab done ls
            (c :: rs, h)
          | none => ([], some (.errorParse (String.mk line)))

/-! ### The outer `fetchChanges` loop

A run is driven by a finite script of transport events, one per issued
request.  `Math.random()` draws are injected as `jit : Nat → ℚ`, indexed by
the value of `retryCount` at the draw (the counter never repeats a value
within a run, so this indexing is faithful). -/

/-- The parsed JSON body of a normal/longpoll response:
`{results: [...], last_seq}` (`last_seq` possibly absent). -/
structure NormalData where
  results : List Change
  last_seq : Option SeqVal := none
deriving DecidableEq, Repr

/-- One scripted response: HTTP status information, the result of
`response.json()` (`none` models a body that fails to parse or has no
`results` array) and the byte chunks of `response.body` (`none` models a
missing readable body). -/
structure ScriptResp where
  ok : Bool := true
  status : Nat := 200
  jsonData : Option NormalData := none
  bodyChunks : Option (List (List Nat)) := none
deriving DecidableEq, Repr

/-- One transport event: a response, a transport-level rejection, or a
rejection caused by the overall cancellation token firing during the
attempt (after which `signal.aborted` is true). -/
inductive ScriptEv where
  | resp (r : ScriptResp)
  | netError (msg : String)
  | abortReject
deriving DecidableEq, Repr

/-- Classified failures surfaced by a run. -/
inductive ErrKind where
  | http (status : Nat)
  | jsonParse
  | noBody
  | net (msg : String)
  | parseErr (line : String)
deriving DecidableEq, Repr

/-- How a run of `fetchChanges` ends: clean generator return, a thrown
error (only when `live` is not enabled), or the script ran out while a
request was in flight (a model artifact used for infinite feeds). -/
inductive Outcome where
  | done
  | error (e : ErrKind)
  | scriptEnd
deriving DecidableEq, Repr

/-- The observable trace of a run: every issued request together with the
cursor it was built from, every yielded record together with the value of
`activeSeq` at the instant of the yield, every retry event as
`(retryCount, delay)`, the outcome, and the final cursor. -/
structure RunOut where
  requests : List (Option SeqVal × Request)
  yields : List (Change × Option SeqVal)
  retries : List (Nat × ℚ)
  outcome : Outcome
  finalSeq : Option SeqVal
deriving DecidableEq, Repr

/-- Cursor after the normal/longpoll batch loop: the `for` loop leaves
`activeSeq` at the last result's `seq` (if any), then
`if (data.last_seq) this.activeSeq = data.last_seq` applies only when
`last_seq` is truthy. -/
def batchSeq (seq0 : Option SeqVal) (d : NormalData) : Option SeqVal :=
  let s1 := match d.results.getLast? with
    | some c => some c.seq
    | none => seq0
  match d.last_seq with
  | some v => if v.truthy then some v else s1
  | none => s1

/-- Cursor after a continuous/eventsource read loop: `activeSeq` is set
from each record immediately before its yield. -/
def streamSeq (seq0 : Option SeqVal) (recs : List Change) : Option SeqVal :=
  match recs.getLast? with
  | some c => some c.seq
  | none => seq0

/-- Prefix a sub-run's trace with the current attempt's request, yields and
(for the retry path) retry event. -/
def withStep (req : Option SeqVal × Request) (ys : List (Change × Option SeqVal))
    (retry : Option (Nat × ℚ)) (out : RunOut) : RunOut :=
  ⟨req :: out.requests, ys ++ out.yields,
    (retry.toList) ++ out.retries, out.outcome, out.finalSeq⟩

/-- The `while (!signal.aborted) { try { ... } catch { ... } }` loop of
`fetchChanges`.  `ab` is the state of the overall cancellation token
(`true` after `stop()` / an external abort); within a run it only changes
through an `abortReject` event, which ends the loop.  The catch block
swallows the error when the token fired, retries with backoff when `live`
is truthy (incrementing `retryCount` first) and rethrows otherwise. -/
def runFetch (parse : String → Option Change) (cfg : CouchDBChangesOptions)
    (jit : Nat → ℚ) (ab : Bool) (seq0 : Option SeqVal) (rc : Nat) :
    List ScriptEv → RunOut
  | [] =>
    if ab then ⟨[], [], [], .done, seq0⟩
    else ⟨[(seq0, mkRequest cfg seq0)], [], [], .scriptEnd, seq0⟩
  | ev :: rest =>
    if ab then ⟨[], [], [], .done, seq0⟩
    else
      let req := (seq0, mkRequest cfg seq0)
      match ev with
      | .abortReject => ⟨[req], [], [], .done, seq0⟩
      | .netError m =>
        if cfg.live = some true then
          withStep req []
            (some (rc + 1, retryDelay (rc + 1) (jit (rc + 1))))
            (runFetch parse cfg jit ab seq0 (rc + 1) rest)
        else ⟨[req], [], [], .error (.net m), seq0⟩
      | .resp r =>
        if r.ok = false then
          if cfg.live = some true then
            withStep req []
              (some (rc + 1, retryDelay (rc + 1) (jit (rc + 1))))
              (runFetch parse cfg jit ab seq0 (rc + 1) rest)
          else ⟨[req], [], [], .error (.http r.status), seq0⟩
        else if isNormalCfg cfg || isLongpollCfg cfg then
          match r.jsonData with
          | none =>
            if cfg.live = some true then
              withStep req []
                (some (rc + 1, retryDelay (rc + 1) (jit (rc + 1))))
                (runFetch parse cfg jit ab seq0 (rc + 1) rest)
            else ⟨[req], [], [], .error .jsonParse, seq0⟩
          | some d =>
            let ys := d.results.map (fun c => (c, some c.seq))
            let seq2 := batchSeq seq0 d
            if isLongpollCfg cfg then
              withStep req ys none (runFetch parse cfg jit ab seq2 rc rest)
            else ⟨[req], ys, [], .done, seq2⟩
        else
          match r.bodyChunks with
          | none =>
            if cfg.live = some true then
              withStep req []
                (some (rc + 1, retryDelay (rc + 1) (jit (rc + 1))))
                (runFetch parse cfg jit ab seq0 (rc + 1) rest)
            else ⟨[req], [], [], .error .noBody, seq0⟩
          | some chunks =>
            match engineRun (isEventsourceCfg cfg) parse ab
                ⟨utf8Init, []⟩ chunks with
            | (recs, .clean) =>
              ⟨[req], recs.map (fun c => (c, some c.seq)), [], .done,
                streamSeq seq0 recs⟩
            | (recs, .errorParse l) =>
              let ys := recs.map (fun c => (c, some c.seq))
              let seqC := streamSeq seq0 recs
              if cfg.live = some true then
                withStep req ys
                  (some (rc + 1, retryDelay (rc + 1) (jit (rc + 1))))
                  (runFetch parse cfg jit ab seqC (rc + 1) rest)
              else ⟨[req], ys, [], .error (.parseErr l), seqC⟩

/-! ### Iterator surface, `stop()` and resumption points -/

/-- `AbortController.abort()`: the signal becomes and stays aborted. -/
def abortCtrl (_s : Bool) : Bool := true

/-- `stop()` simply aborts the instance's controller. -/
def stopCtrl (s : Bool) : Bool := abortCtrl s

/-- The constructor's `abortController || new AbortController()`: the
instance shares the caller-supplied controller's state when one is given,
otherwise starts with a fresh, non-aborted one. -/
def initAborted (supplied : Option Bool) : Bool :=
  match supplied with
  | some b => b
  | none => false

/-- One pass of `[Symbol.asyncIterator]`: delegate to `fetchChanges`, and
in `finally` abort the instance's controller whatever way the iteration
ended.  Returns the trace and the controller state afterwards. -/
def iterate (parse : String → Option Change) (cfg : CouchDBChangesOptions)
    (jit : Nat → ℚ) (ab : Bool) (evs : List ScriptEv) : RunOut × Bool :=
  (runFetch parse cfg jit ab none 0 evs, abortCtrl ab)

/-- Resuming the normal/longpoll batch loop at the next consumer pull: the
`for (const change of data.results)` loop consults no cancellation signal,
so the next remaining record (if any) is yielded regardless of `ab`,
with `activeSeq` set from it first. -/
def resumeBatch (_ab : Bool) (remaining : List Change) :
    Option (Change × Option SeqVal) :=
  match remaining with
  | [] => none
  | c :: _ => some (c, some c.seq)

/-- The backoff sleep is `await new Promise((resolve) =>
setTimeout(resolve, delay))`: its resolution is scheduled solely by the
timer, so the time until it resolves is the full delay whether or not the
overall token aborts in the meantime. -/
def retrySleepElapsed (delay : ℚ) (_abortedDuring : Bool) : ℚ := delay

/-! ### Concrete sample data used by witnesses -/

/-- A sample change record. -/
def sampleChange1 : Change := ⟨.num 1, "doc1", ["1-a"], none, none⟩

/-- A second sample change record. -/
def sampleChange2 : Change := ⟨.num 2, "doc2", ["1-b"], none, none⟩

/-- A third sample change record, keyed by a non-ASCII line. -/
def sampleChange3 : Change := ⟨.num 3, "doc3", ["1-c"], none, none⟩

/-- A concrete stand-in for `JSON.parse` on single lines, mapping three
known lines to records and failing on everything else. -/
def sampleParse (s : String) : Option Change :=
  if s = "A" then some sampleChange1
  else if s = "B" then some sampleChange2
  else if s = "€" then some sampleChange3
  else none

/-- A normal/longpoll batch `{results: [c1], last_seq: 1}`. -/
def batchLs1 : NormalData := { results := [sampleChange1], last_seq := some (.num 1) }

/-- A batch with the falsy `last_seq: 0`. -/
def batchLs0 : NormalData := { results := [sampleChange1], last_seq := some (.num 0) }

/-- A two-record batch with `last_seq: 5`. -/
def batchTwo5 : NormalData := { results := [sampleChange1, sampleChange2], last_seq := some (.num 5) }

/-- A two-record batch with `last_seq: 2`. -/
def batchTwo2 : NormalData := { results := [sampleChange1, sampleChange2], last_seq := some (.num 2) }

/-- A continuous-feed configuration. -/
def contCfg : CouchDBChangesOptions := { feed := some .continuous }

/-- A live continuous-feed configuration. -/
def contLiveCfg : CouchDBChangesOptions := { feed := some .continuous, live := some true }

/-- A configuration with `limit: 1`. -/
def limitOneCfg : CouchDBChangesOptions := { limit := some 1 }

/-- A longpoll configuration with a config-supplied `since: 0`. -/
def lpSinceCfg : CouchDBChangesOptions := { since := some (.num 0), feed := some .longpoll }

/-- The structural twin of the read loop used for evaluation: identical to
`engineRun` except that the newline loop is expressed as `runLines` over
`splitNl` (`processBuffer_eq_runLines` proves the two loops equal, and
`engineRun_eq_engineRunL` transports that to whole runs). -/
def engineRunL (isES : Bool) (parse : String → Option Change) (ab : Bool)
    (st : EngSt) : List (List Nat) → List Change × Halt
  | [] =>
    if ab then ([], .clean)
    else
      match runLines isES parse ab true (splitNl st.buffer).1 with
      | (rs, none) => (rs, .clean)
      | (rs, some h) => (rs, h)
  | chunk :: cs =>
    if ab then ([], .clean)
    else
      let (dec1, out) := utf8Decode st.dec chunk
      match runLines isES parse ab false (splitNl (st.buffer ++ out)).1 with
      | (rs, none) =>
        let (rs2, h) := engineRunL isES parse ab
          ⟨dec1, (splitNl (st.buffer ++ out)).2⟩ cs
        (rs ++ rs2, h)
      | (rs, some h) => (rs, h)

/-- Specification predicate for retry traces: starting from counter value
`rc`, the recorded events carry consecutive counter values (incremented
before each delay is computed) and delays drawn from the backoff formula
with the corresponding jitter draw. -/
def retriesOK (jit : Nat → ℚ) : Nat → List (Nat × ℚ) → Prop
  | _, [] => True
  | rc, e :: t =>
    e = (rc + 1, retryDelay (rc + 1) (jit (rc + 1))) ∧ retriesOK jit (rc + 1) t

/-- Specification predicate bundling the trace invariants of a (sub-)run
started with cursor `seq0` and retry counter `rc`: backoff discipline of
the retry trace, cursor set to each yielded record's `seq` at yield time,
each request built from the cursor recorded for it, a set cursor staying
set, and cursor-setness monotone over the requests in issuance order. -/
def TraceOK (cfg : CouchDBChangesOptions) (jit : Nat → ℚ)
    (seq0 : Option SeqVal) (rc : Nat) (out : RunOut) : Prop :=
  retriesOK jit rc out.retries ∧
  (∀ p ∈ out.yields, p.2 = some p.1.seq) ∧
  (∀ q ∈ out.requests, q.2 = mkRequest cfg q.1) ∧
  (seq0.isSome = true → out.finalSeq.isSome = true ∧
    ∀ q ∈ out.requests, q.1.isSome = true) ∧
  List.Sorted (· ≤ ·) (out.requests.map (fun q => q.1.isSome))

/-! ## Theorems -/

/-- A batch leaves the cursor set when it was set before. -/
theorem batchSeq_isSome (v : SeqVal) (d : NormalData) :
    (batchSeq (some v) d).isSome = true := by
  unfold batchSeq
  rcases d.results.getLast? with _ | c <;>
    rcases d.last_seq with _ | w <;> simp <;> split <;> simp

/-- A continuous read loop leaves the cursor set when it was set before. -/
theorem streamSeq_isSome (v : SeqVal) (recs : List Change) :
    (streamSeq (some v) recs).isSome = true := by
  unfold streamSeq
  rcases recs.getLast? with _ | c <;> simp

/-- Records paired with their own `seq` satisfy the yield invariant. -/
theorem mem_pairSeq (l : List Change) :
    ∀ p ∈ l.map (fun c => (c, some c.seq)), p.2 = some p.1.seq := by
  intro p hp
  simp only [List.mem_map] at hp
  obtain ⟨c, _, rfl⟩ := hp
  rfl

/-- Trace invariants of a terminal step: one request from the current
cursor, yields paired with their `seq`, no retries. -/
theorem TraceOK_single (cfg : CouchDBChangesOptions) (jit : Nat → ℚ)
    (seq0 seqF : Option SeqVal) (rc : Nat) (ys : List Change) (oc : Outcome)
    (hseq : seq0.isSome = true → seqF.isSome = true) :
    TraceOK cfg jit seq0 rc
      ⟨[(seq0, mkRequest cfg seq0)], ys.map (fun c => (c, some c.seq)), [],
        oc, seqF⟩ := by
  refine ⟨trivial, mem_pairSeq ys, ?_, ?_, ?_⟩
  · intro q hq
    simp only [List.mem_singleton] at hq
    subst hq
    rfl
  · intro hs
    refine ⟨hseq hs, ?_⟩
    intro q hq
    simp only [List.mem_singleton] at hq
    subst hq
    exact hs
  · simp

/-- Trace invariants are preserved by prefixing the current attempt's
request and yields onto a sub-run continuing with the same counter
(the longpoll continue path). -/
theorem TraceOK_cont (cfg : CouchDBChangesOptions) (jit : Nat → ℚ)
    (seq0 seqC : Option SeqVal) (rc : Nat) (ys : List Change) (out : RunOut)
    (hseq : seq0.isSome = true → seqC.isSome = true)
    (hsub : TraceOK cfg jit seqC rc out) :
    TraceOK cfg jit seq0 rc
      (withStep (seq0, mkRequest cfg seq0) (ys.map (fun c => (c, some c.seq)))
        none out) := by
  obtain ⟨h1, h2, h3, h4, h5⟩ := hsub
  refine ⟨?_, ?_, ?_, ?_, ?_⟩
  · simpa [withStep] using h1
  · simp only [withStep, List.mem_append]
    rintro p (hp | hp)
    · exact mem_pairSeq ys p hp
    · exact h2 p hp
  · simp only [withStep, List.mem_cons]
    rintro q (rfl | hq)
    · rfl
    · exact h3 q hq
  · intro hs
    obtain ⟨hf, hq⟩ := h4 (hseq hs)
    refine ⟨hf, ?_⟩
    simp only [withStep, List.mem_cons]
    rintro q (rfl | hmem)
    · exact hs
    · exact hq q hmem
  · simp only [withStep, List.map_cons, List.sorted_cons]
    refine ⟨?_, h5⟩
    intro b hb
    rcases hs : seq0.isSome with _ | _
    · simp [hs]
    · simp only [List.mem_map] at hb
      obtain ⟨q, hmem, rfl⟩ := hb
      simp [hs, (h4 (hseq hs)).2 q hmem]

/-- Trace invariants are preserved by the catch-and-retry path: the counter
is incremented before the delay is computed, and the sub-run continues from
the current cursor with the incremented counter. -/
theorem TraceOK_retry (cfg : CouchDBChangesOptions) (jit : Nat → ℚ)
    (seq0 seqC : Option SeqVal) (rc : Nat) (ys : List Change) (out : RunOut)
    (hseq : seq0.isSome = true → seqC.isSome = true)
    (hsub : TraceOK cfg jit seqC (rc + 1) out) :
    TraceOK cfg jit seq0 rc
      (withStep (seq0, mkRequest cfg seq0) (ys.map (fun c => (c, some c.seq)))
        (some (rc + 1, retryDelay (rc + 1) (jit (rc + 1)))) out) := by
  obtain ⟨h1, h2, h3, h4, h5⟩ := hsub
  refine ⟨?_, ?_, ?_, ?_, ?_⟩
  · simpa [withStep, retriesOK] using h1
  · simp only [withStep, List.mem_append]
    rintro p (hp | hp)
    · exact mem_pairSeq ys p hp
    · exact h2 p hp
  · simp only [withStep, List.mem_cons]
    rintro q (rfl | hq)
    · rfl
    · exact h3 q hq
  · intro hs
    obtain ⟨hf, hq⟩ := h4 (hseq hs)
    refine ⟨hf, ?_⟩
    simp only [withStep, List.mem_cons]
    rintro q (rfl | hmem)
    · exact hs
    · exact hq q hmem
  · simp only [withStep, List.map_cons, List.sorted_cons]
    refine ⟨?_, h5⟩
    intro b hb
    rcases hs : seq0.isSome with _ | _
    · simp [hs]
    · simp only [List.mem_map] at hb
      obtain ⟨q, hmem, rfl⟩ := hb
      simp [hs, (h4 (hseq hs)).2 q hmem]

/-- Master trace invariants of the fetch loop, for every script, cursor and
starting counter. -/
theorem runFetch_trace (parse : String → Option Change)
    (cfg : CouchDBChangesOptions) (jit : Nat → ℚ) :
    ∀ (evs : List ScriptEv) (ab : Bool) (seq0 : Option SeqVal) (rc : Nat),
      TraceOK cfg jit seq0 rc (runFetch parse cfg jit ab seq0 rc evs) := by
  intro evs
  induction evs with
  | nil =>
    intro ab seq0 rc
    cases ab with
    | true => exact ⟨trivial, by simp [runFetch], by simp [runFetch],
        fun hs => by simp [runFetch, hs], by simp [runFetch]⟩
    | false =>
      have : runFetch parse cfg jit false seq0 rc [] =
          ⟨[(seq0, mkRequest cfg seq0)], [], [], .scriptEnd, seq0⟩ := rfl
      rw [this]
      simpa using TraceOK_single cfg jit seq0 seq0 rc [] .scriptEnd (fun h => h)
  | cons ev rest ih =>
    intro ab seq0 rc
    cases ab with
    | true => exact ⟨trivial, by simp [runFetch], by simp [runFetch],
        fun hs => by simp [runFetch, hs], by simp [runFetch]⟩
    | false =>
      cases ev with
      | abortReject =>
        have : runFetch parse cfg jit false seq0 rc (.abortReject :: rest) =
            ⟨[(seq0, mkRequest cfg seq0)], [], [], .done, seq0⟩ := rfl
        rw [this]
        simpa using TraceOK_single cfg jit seq0 seq0 rc [] .done (fun h => h)
      | netError m =>
        by_cases hl : cfg.live = some true
        · have : runFetch parse cfg jit false seq0 rc (.netError m :: rest) =
              withStep (seq0, mkRequest cfg seq0) []
                (some (rc + 1, retryDelay (rc + 1) (jit (rc + 1))))
                (runFetch parse cfg jit false seq0 (rc + 1) rest) := by
            simp [runFetch, hl]
          rw [this]
          simpa using TraceOK_retry cfg jit seq0 seq0 rc [] _ (fun h => h)
            (ih false seq0 (rc + 1))
        · have : runFetch parse cfg jit false seq0 rc (.netError m :: rest) =
              ⟨[(seq0, mkRequest cfg seq0)], [], [], .error (.net m), seq0⟩ := by
            simp [runFetch, hl]
          rw [this]
          simpa using TraceOK_single cfg jit seq0 seq0 rc [] _ (fun h => h)
      | resp r =>
        by_cases hok : r.ok = false
        · by_cases hl : cfg.live = some true
          · have : runFetch parse cfg jit false seq0 rc (.resp r :: rest) =
                withStep (seq0, mkRequest cfg seq0) []
                  (some (rc + 1, retryDelay (rc + 1) (jit (rc + 1))))
                  (runFetch parse cfg jit false seq0 (rc + 1) rest) := by
              simp [runFetch, hok, hl]
            rw [this]
            simpa using TraceOK_retry cfg jit seq0 seq0 rc [] _ (fun h => h)
              (ih false seq0 (rc + 1))
          · have : runFetch parse cfg jit false seq0 rc (.resp r :: rest) =
                ⟨[(seq0, mkRequest cfg seq0)], [], [], .error (.http r.status),
                  seq0⟩ := by
              simp [runFetch, hok, hl]
            rw [this]
            simpa using TraceOK_single cfg jit seq0 seq0 rc [] _ (fun h => h)
        · by_cases hm : (isNormalCfg cfg || isLongpollCfg cfg) = true
          · rcases hj : r.jsonData with _ | d
            · by_cases hl : cfg.live = some true
              · have : runFetch parse cfg jit false seq0 rc (.resp r :: rest) =
                    withStep (seq0, mkRequest cfg seq0) []
                      (some (rc + 1, retryDelay (rc + 1) (jit (rc + 1))))
                      (runFetch parse cfg jit false seq0 (rc + 1) rest) := by
                  simp [runFetch, hok, hm, hj, hl]
                rw [this]
                simpa using TraceOK_retry cfg jit seq0 seq0 rc [] _ (fun h => h)
                  (ih false seq0 (rc + 1))
              · have : runFetch parse cfg jit false seq0 rc (.resp r :: rest) =
                    ⟨[(seq0, mkRequest cfg seq0)], [], [], .error .jsonParse,
                      seq0⟩ := by
                  simp [runFetch, hok, hm, hj, hl]
                rw [this]
                simpa using TraceOK_single cfg jit seq0 seq0 rc [] _ (fun h => h)
            · have hbs : seq0.isSome = true → (batchSeq seq0 d).isSome = true := by
                intro hs
                obtain ⟨v, rfl⟩ := Option.isSome_iff_exists.1 hs
                exact batchSeq_isSome v d
              by_cases hlp : isLongpollCfg cfg = true
              · have : runFetch parse cfg jit false seq0 rc (.resp r :: rest) =
                    withStep (seq0, mkRequest cfg seq0)
                      (d.results.map (fun c => (c, some c.seq))) none
                      (runFetch parse cfg jit false (batchSeq seq0 d) rc rest) := by
                  simp [runFetch, hok, hm, hj, hlp]
                rw [this]
                exact TraceOK_cont cfg jit seq0 _ rc d.results _ hbs
                  (ih false (batchSeq seq0 d) rc)
              · have hniso : isNormalCfg cfg = true := by
                  rcases (Bool.or_eq_true _ _).mp hm with h | h
                  · exact h
                  · exact absurd h hlp
                have : runFetch parse cfg jit false seq0 rc (.resp r :: rest) =
                    ⟨[(seq0, mkRequest cfg seq0)],
                      d.results.map (fun c => (c, some c.seq)), [], .done,
                      batchSeq seq0 d⟩ := by
                  simp [runFetch, hok, hm, hj, hlp, hniso]
                rw [this]
                exact TraceOK_single cfg jit seq0 _ rc d.results .done hbs
          · rcases hb : r.bodyChunks with _ | chunks
            · by_cases hl : cfg.live = some true
              · have : runFetch parse cfg jit false seq0 rc (.resp r :: rest) =
                    withStep (seq0, mkRequest cfg seq0) []
                      (some (rc + 1, retryDelay (rc + 1) (jit (rc + 1))))
                      (runFetch parse cfg jit false seq0 (rc + 1) rest) := by
                  simp [runFetch, hok, hm, hb, hl]
                rw [this]
                simpa using TraceOK_retry cfg jit seq0 seq0 rc [] _ (fun h => h)
                  (ih false seq0 (rc + 1))
              · have : runFetch parse cfg jit false seq0 rc (.resp r :: rest) =
                    ⟨[(seq0, mkRequest cfg seq0)], [], [], .error .noBody,
                      seq0⟩ := by
                  simp [runFetch, hok, hm, hb, hl]
                rw [this]
                simpa using TraceOK_single cfg jit seq0 seq0 rc [] _ (fun h => h)
            · rcases he : engineRun (isEventsourceCfg cfg) parse false
                  ⟨utf8Init, []⟩ chunks with ⟨recs, hh⟩
              have hss : seq0.isSome = true →
                  (streamSeq seq0 recs).isSome = true := by
                intro hs
                obtain ⟨v, rfl⟩ := Option.isSome_iff_exists.1 hs
                exact streamSeq_isSome v recs
              cases hh with
              | clean =>
                have : runFetch parse cfg jit false seq0 rc (.resp r :: rest) =
                    ⟨[(seq0, mkRequest cfg seq0)],
                      recs.map (fun c => (c, some c.seq)), [], .done,
                      streamSeq seq0 recs⟩ := by
                  simp [runFetch, hok, hm, hb, he]
                rw [this]
                exact TraceOK_single cfg jit seq0 _ rc recs .done hss
              | errorParse l =>
                by_cases hl : cfg.live = some true
                · have : runFetch parse cfg jit false seq0 rc (.resp r :: rest) =
                      withStep (seq0, mkRequest cfg seq0)
                        (recs.map (fun c => (c, some c.seq)))
                        (some (rc + 1, retryDelay (rc + 1) (jit (rc + 1))))
                        (runFetch parse cfg jit false (streamSeq seq0 recs)
                          (rc + 1) rest) := by
                    simp [runFetch, hok, hm, hb, he, hl]
                  rw [this]
                  exact TraceOK_retry cfg jit seq0 _ rc recs _ hss
                    (ih false (streamSeq seq0 recs) (rc + 1))
                · have : runFetch parse cfg jit false seq0 rc (.resp r :: rest) =
                      ⟨[(seq0, mkRequest cfg seq0)],
                        recs.map (fun c => (c, some c.seq)), [],
                        .error (.parseErr l), streamSeq seq0 recs⟩ := by
                    simp [runFetch, hok, hm, hb, he, hl]
                  rw [this]
                  exact TraceOK_single cfg jit seq0 _ rc recs _ hss

/-- A normal-mode configuration is not longpoll. -/
theorem isNormal_not_longpoll {o : CouchDBChangesOptions}
    (h : isNormalCfg o = true) : isLongpollCfg o = false := by
  rcases hf : o.feed with _ | f
  · simp [isLongpollCfg, hf]
  · cases f <;> simp_all [isNormalCfg, isLongpollCfg]

/-- C3 (counterexample): with `doc_ids` absent and `selector` the empty
object `{}`, `fetchChanges` still produces the body `{selector: {}}` and
method `POST`, whereas the claim ("else {selector} when selector is a
non-empty object, else absent; POST iff a body was produced") predicts no
body and `GET` here. -/
theorem empty_selector_still_posts :
    requestBody { selector := some [] } = some (.sel []) ∧
    reqMethod { selector := some [] } = .POST ∧
    requestBody { selector := some [] } ≠ none := by
  refine ⟨rfl, rfl, by decide⟩

/-- C3 (amended): the request body is `{doc_ids}` when `doc_ids` is a
non-empty list, else `{selector}` when `selector` is any defined object
(empty or not), else absent; the method is `POST` iff a body was
produced. -/
theorem request_body_and_method (o : CouchDBChangesOptions) :
    (requestBody o = match o.doc_ids with
      | some (x :: xs) => some (.docIds (x :: xs))
      | _ => match o.selector with
        | some s => some (.sel s)
        | none => none) ∧
    (reqMethod o = .POST ↔ (requestBody o).isSome = true) := by
  constructor
  · rcases hd : o.doc_ids with _ | (_ | ⟨x, xs⟩) <;>
      rcases hs : o.selector with _ | s <;>
        simp [requestBody, hasDocIds, hasSelector, hd, hs]
  · cases h : (requestBody o).isSome <;> simp [reqMethod, h]

/-- C4 (counterexample): `heartbeat: false` does not disable the watchdog:
`usesHeartbeat` is computed with the strict test `!== 0`, so a continuous
feed with `heartbeat: false` keeps the watchdog active (with the default
60000 ms interval), whereas the claim says it is inactive for `false`. -/
theorem heartbeat_false_still_enabled :
    usesHeartbeat { feed := some .continuous, heartbeat := some (.bool false) } = true ∧
    heartbeatInterval { feed := some .continuous, heartbeat := some (.bool false) } = 60000 := by
  exact ⟨rfl, rfl⟩

/-- C4 (amended): the watchdog is active exactly for continuous/eventsource
feeds whose `heartbeat` is not the number `0` (a boolean `false` does not
disable it); the effective interval is the numeric value if provided, else
60000 ms, and the timeout threshold is interval + max(interval/10, 1000). -/
theorem heartbeat_watchdog_config (o : CouchDBChangesOptions) :
    (usesHeartbeat o = true ↔
      ((o.feed = some .continuous ∨ o.feed = some .eventsource) ∧
        o.heartbeat ≠ some (.num 0))) ∧
    (∀ n : Int, o.heartbeat = some (.num n) → heartbeatInterval o = (n : ℚ)) ∧
    ((∀ n : Int, o.heartbeat ≠ some (.num n)) → heartbeatInterval o = 60000) ∧
    (adjustedTimeout o = heartbeatInterval o +
      max (heartbeatInterval o * (1 / 10)) 1000) := by
  refine ⟨?_, ?_, ?_, rfl⟩
  · simp [usesHeartbeat, isContinuousCfg, isEventsourceCfg]
  · intro n h
    simp [heartbeatInterval, h]
  · intro h
    unfold heartbeatInterval
    rcases hb : o.heartbeat with _ | (b | n)
    · rfl
    · rfl
    · exact absurd hb (h n)

/-- C4 (witness): a continuous feed with `heartbeat: 30000` has effective
interval 30000 ms. -/
theorem heartbeat_watchdog_config_witness :
    heartbeatInterval { feed := some .continuous, heartbeat := some (.num 30000) } = 30000 := by
  exact_mod_cast (heartbeat_watchdog_config _).2.1 30000 rfl

/-- C9 (counterexample): the claim fails in two places.  The normal/longpoll
batch loop consults no cancellation signal, so after `stop()` the next pull
still yields the next record of the already-parsed batch instead of
completing the iteration.  And the backoff sleep is a plain `setTimeout`
promise: an abort during it does not shorten it, so stopping during a
200 ms backoff still waits the full 200 ms. -/
theorem stop_not_immediate :
    resumeBatch true [sampleChange2] ≠ none ∧
    ¬ retrySleepElapsed 200 true < 200 := by
  constructor
  · simp [resumeBatch, sampleChange2]
  · simp [retrySleepElapsed]

/-- C9 (amended): `stop()` aborts the instance's controller, idempotently
and permanently.  Once the token is aborted at the top of the fetch loop,
no request is issued and no record is yielded, and the run ends; a pull
resuming the continuous/eventsource read loop under an aborted token ends
immediately with no records.  However, a pull resuming a normal/longpoll
batch still yields the next already-parsed record regardless of the token,
and a backoff sleep in progress is waited out in full rather than
aborted. -/
theorem stop_semantics :
    (∀ s, abortCtrl (abortCtrl s) = abortCtrl s) ∧
    (∀ s, stopCtrl s = true) ∧
    (∀ parse cfg jit seq0 rc evs,
      runFetch parse cfg jit true seq0 rc evs = ⟨[], [], [], .done, seq0⟩) ∧
    (∀ isES parse st cs, engineRun isES parse true st cs = ([], .clean)) ∧
    (∀ ab c rest, resumeBatch ab (c :: rest) = some (c, some c.seq)) ∧
    (∀ d ab, retrySleepElapsed d ab = d) := by
  refine ⟨fun _ => rfl, fun _ => rfl, ?_, ?_, fun _ _ _ => rfl, fun _ _ => rfl⟩
  · intro parse cfg jit seq0 rc evs
    cases evs <;> rfl
  · intro isES parse st cs
    cases cs <;> rfl

/-- A retry trace satisfying the discipline has, at index `i`, counter
`rc + 1 + i` and the delay computed from it. -/
theorem retriesOK_getD (jit : Nat → ℚ) :
    ∀ (l : List (Nat × ℚ)) (rc i : Nat), retriesOK jit rc l →
      i < l.length →
      l.getD i (0, 0) =
        (rc + 1 + i, retryDelay (rc + 1 + i) (jit (rc + 1 + i))) := by
  intro l
  induction l with
  | nil =>
    intro rc i _ hi
    simp at hi
  | cons e t ih =>
    intro rc i h hi
    obtain ⟨he, ht⟩ := h
    cases i with
    | zero => simpa using he
    | succ j =>
      have hj : j < t.length := by simpa using hi
      have := ih (rc + 1) j ht hj
      have harith : rc + 1 + 1 + j = rc + 1 + (j + 1) := by omega
      simpa [List.getD, harith] using this

/-- C5: on every classified-retryable failure with `live` enabled, the
`i`-th retry event of a run (numbering from 0) carries counter value
`i + 1` — the counter is incremented before the delay is computed and is
never reset, even across successful reconnects within the run — and its
delay is `min(2^(i+1)·100, 30000)` plus the jitter draw scaled to
`[0, 100)`. -/
theorem retry_backoff_policy (parse : String → Option Change)
    (cfg : CouchDBChangesOptions) (jit : Nat → ℚ) (seq0 : Option SeqVal)
    (evs : List ScriptEv) (i : Nat)
    (hi : i < (runFetch parse cfg jit false seq0 0 evs).retries.length)
    (hjit : 0 ≤ jit (i + 1) ∧ jit (i + 1) < 1) :
    (runFetch parse cfg jit false seq0 0 evs).retries.getD i (0, 0) =
      (i + 1, backoffBase (i + 1) + jit (i + 1) * 100) ∧
    backoffBase (i + 1) ≤
      ((runFetch parse cfg jit false seq0 0 evs).retries.getD i (0, 0)).2 ∧
    ((runFetch parse cfg jit false seq0 0 evs).retries.getD i (0, 0)).2 <
      backoffBase (i + 1) + 100 := by
  have h := (runFetch_trace parse cfg jit evs false seq0 0).1
  have hg := retriesOK_getD jit _ 0 i h hi
  have h01 : 0 + 1 + i = i + 1 := by omega
  rw [h01] at hg
  rw [hg]
  refine ⟨rfl, ?_, ?_⟩
  · simp only [retryDelay]
    nlinarith [hjit.1]
  · simp only [retryDelay]
    nlinarith [hjit.2]

/-- C5 (witness): a live continuous feed whose first attempt fails with a
transport error records a first retry event with counter 1 and delay
`min(2·100, 30000) + 0 = 200` ms for a zero jitter draw. -/
theorem retry_backoff_policy_witness :
    (runFetch sampleParse { feed := some .continuous, live := some true }
        (fun _ => 0) false none 0 [.netError "boom"]).retries.getD 0 (0, 0) =
      (1, backoffBase 1 + 0 * 100) :=
  (retry_backoff_policy sampleParse
    { feed := some .continuous, live := some true } (fun _ => 0) none
    [.netError "boom"] 0 (by decide) (by norm_num)).1

/-- Overriding `since` via `searchParams.set` makes it the value looked up
afterwards. -/
theorem searchParamsSet_get (k v : String) :
    ∀ q : List (String × String), paramsGet (searchParamsSet q k v) k = some v := by
  intro q
  induction q with
  | nil => simp [searchParamsSet, paramsGet]
  | cons p rest ih =>
    obtain ⟨k', v'⟩ := p
    by_cases h : k' = k
    · subst h
      simp [searchParamsSet, paramsGet, List.find?]
    · simp only [searchParamsSet, h, if_false]
      simpa [paramsGet, List.find?, h] using ih

/-- Looking up a key skips a leading entry with a different key. -/
theorem paramsGet_append_ne (k k' : String) (x : Option String)
    (rest : List (String × String)) (h : ¬ k = k') :
    paramsGet (optEntry k x ++ rest) k' = paramsGet rest k' := by
  cases x <;> simp [optEntry, paramsGet, List.find?, h]

/-- Looking up a key in a single foreign entry yields nothing. -/
theorem paramsGet_optEntry_ne (k k' : String) (x : Option String)
    (h : ¬ k = k') : paramsGet (optEntry k x) k' = none := by
  cases x <;> simp [optEntry, paramsGet, List.find?, h]

/-- Without a cursor override, the `since` of the built query is the
config-supplied one (when defined and non-empty). -/
theorem paramsGet_base_since (o : CouchDBChangesOptions) :
    paramsGet (buildQueryBase o) "since" = sinceParam o := by
  have hnone : optEntry "since" (none : Option String) = [] := rfl
  rcases h : sinceParam o with _ | s
  · simp only [buildQueryBase, List.append_assoc, h, hnone, List.nil_append]
    rw [paramsGet_append_ne "filter" "since" _ _ (by decide),
      paramsGet_append_ne "conflicts" "since" _ _ (by decide),
      paramsGet_append_ne "descending" "since" _ _ (by decide),
      paramsGet_append_ne "heartbeat" "since" _ _ (by decide),
      paramsGet_append_ne "include_docs" "since" _ _ (by decide),
      paramsGet_append_ne "attachments" "since" _ _ (by decide),
      paramsGet_append_ne "att_encoding_info" "since" _ _ (by decide),
      paramsGet_append_ne "limit" "since" _ _ (by decide),
      paramsGet_append_ne "style" "since" _ _ (by decide),
      paramsGet_append_ne "timeout" "since" _ _ (by decide),
      paramsGet_append_ne "seq_interval" "since" _ _ (by decide),
      paramsGet_optEntry_ne "feed" "since" _ (by decide)]
  · simp only [buildQueryBase, List.append_assoc, h]
    simp [optEntry, paramsGet, List.find?]

/-- With the cursor set, the built query's `since` is the cursor's value,
whatever the config said. -/
theorem buildUrl_since_override (o : CouchDBChangesOptions) (v : SeqVal) :
    paramsGet (buildUrl o (some v)) "since" = some v.jsToString := by
  simp [buildUrl, searchParamsSet_get]

/-- C6 (counterexample): in a normal-mode run the cursor is already set to
the record's `seq` at the moment of the (first) yield — the batch is not
yet fully parsed at that point, and the cursor before the request was
unset — refuting "updated only ... after a full batch is parsed
(normal/longpoll)". -/
theorem cursor_moves_before_batch_end :
    (runFetch sampleParse {} (fun _ => 0) false none 0
        [.resp { jsonData := some batchLs1 }]).yields.map (fun p => p.2) =
      [some (.num 1)] ∧
    (some (SeqVal.num 1) : Option SeqVal) ≠ none := by
  refine ⟨by decide, by decide⟩

/-- C6 (amended): `activeSeq` is updated to the record's `seq` immediately
before every yield, in every mode (in normal/longpoll it additionally moves
to a truthy `last_seq` after the batch); every issued request carries
`since` equal to the cursor recorded for it when set — overriding any
config-supplied `since` — and the config-supplied `since` (if any,
non-empty) before the cursor is first set; a cursor once set is set for
every later request of the run (it is never cleared), so every reconnect
resumes from the current cursor. -/
theorem cursor_discipline :
    (∀ parse cfg jit ab seq0 rc evs,
      ∀ p ∈ (runFetch parse cfg jit ab seq0 rc evs).yields,
        p.2 = some p.1.seq) ∧
    (∀ parse cfg jit ab seq0 rc evs,
      ∀ q ∈ (runFetch parse cfg jit ab seq0 rc evs).requests,
        paramsGet q.2.query "since" =
          (match q.1 with
            | some v => some v.jsToString
            | none => sinceParam cfg)) ∧
    (∀ parse cfg jit ab seq0 rc evs, seq0.isSome = true →
      ∀ q ∈ (runFetch parse cfg jit ab seq0 rc evs).requests,
        q.1.isSome = true) ∧
    (∀ parse cfg jit ab seq0 rc evs,
      List.Sorted (· ≤ ·)
        ((runFetch parse cfg jit ab seq0 rc evs).requests.map
          (fun q => q.1.isSome))) := by
  refine ⟨?_, ?_, ?_, ?_⟩
  · intro parse cfg jit ab seq0 rc evs
    exact (runFetch_trace parse cfg jit evs ab seq0 rc).2.1
  · intro parse cfg jit ab seq0 rc evs q hq
    have hshape := (runFetch_trace parse cfg jit evs ab seq0 rc).2.2.1 q hq
    rw [hshape]
    show paramsGet (buildUrl cfg q.1) "since" = _
    rcases q.1 with _ | v
    · exact paramsGet_base_since cfg
    · exact buildUrl_since_override cfg v
  · intro parse cfg jit ab seq0 rc evs hs
    exact fun q hq => ((runFetch_trace parse cfg jit evs ab seq0 rc).2.2.2.1 hs).2 q hq
  · intro parse cfg jit ab seq0 rc evs
    exact (runFetch_trace parse cfg jit evs ab seq0 rc).2.2.2.2

/-- C6 (witness): a run resuming from cursor 5 under a config with
`since: 0` issues its request with `since=5`, overriding the config. -/
theorem cursor_discipline_witness :
    paramsGet (mkRequest lpSinceCfg (some (.num 5))).query "since" =
      some "5" := by
  have h := cursor_discipline.2.1 sampleParse lpSinceCfg (fun _ => 0) false
    (some (.num 5)) 0 []
    (some (.num 5), mkRequest lpSinceCfg (some (.num 5))) (by decide)
  simpa using h

/-- The normal-mode branch of the loop: one successful JSON response is
parsed, each result is yielded in order (cursor set from it first), the
cursor then moves per `last_seq` truthiness, and the generator returns. -/
theorem runFetch_normal_single (parse : String → Option Change)
    (cfg : CouchDBChangesOptions) (jit : Nat → ℚ) (seq0 : Option SeqVal)
    (rc : Nat) (d : NormalData) (r : ScriptResp) (rest : List ScriptEv)
    (hfeed : isNormalCfg cfg = true) (hok : r.ok = true)
    (hj : r.jsonData = some d) :
    runFetch parse cfg jit false seq0 rc (.resp r :: rest) =
      ⟨[(seq0, mkRequest cfg seq0)],
        d.results.map (fun c => (c, some c.seq)), [], .done,
        batchSeq seq0 d⟩ := by
  have hlp := isNormal_not_longpoll hfeed
  simp [runFetch, hok, hj, hfeed, hlp]

/-- C1 (counterexample): a normal-mode response whose `last_seq` is the
falsy number `0` does not advance the cursor to `last_seq`: after the batch
the cursor remains at the last record's `seq` (1), not 0, because the
source guards the assignment with `if (data.last_seq)`. -/
theorem normal_last_seq_zero_not_advanced :
    (runFetch sampleParse {} (fun _ => 0) false none 0
        [.resp { jsonData := some batchLs0 }]).finalSeq = some (.num 1) ∧
    (runFetch sampleParse {} (fun _ => 0) false none 0
        [.resp { jsonData := some batchLs0 }]).finalSeq ≠ some (.num 0) := by
  refine ⟨by decide, by decide⟩

/-- C1 (amended): a normal-mode connection answered by one JSON object
`{results, last_seq}` with N results yields exactly those N records in
array order, terminates, issues exactly one request, and advances the
cursor to `last_seq` after the batch whenever `last_seq` is truthy (for a
falsy `last_seq` the cursor keeps the last record's `seq`). -/
theorem normal_mode_batch (parse : String → Option Change)
    (cfg : CouchDBChangesOptions) (jit : Nat → ℚ) (seq0 : Option SeqVal)
    (d : NormalData) (hfeed : isNormalCfg cfg = true) :
    runFetch parse cfg jit false seq0 0
        [.resp { ok := true, status := 200, jsonData := some d }] =
      ⟨[(seq0, mkRequest cfg seq0)],
        d.results.map (fun c => (c, some c.seq)), [], .done,
        batchSeq seq0 d⟩ ∧
    (∀ v, d.last_seq = some v → v.truthy = true →
      batchSeq seq0 d = some v) := by
  constructor
  · exact runFetch_normal_single parse cfg jit seq0 0 d _ [] hfeed rfl rfl
  · intro v hv htr
    simp [batchSeq, hv, htr]

/-- C1 (witness): two records with a truthy `last_seq = 5` are yielded in
order by a single request, the iteration ends, and the cursor ends at 5. -/
theorem normal_mode_batch_witness :
    (runFetch sampleParse {} (fun _ => 0) false none 0
        [.resp { ok := true, status := 200, jsonData := some batchTwo5 }]) =
      ⟨[(none, mkRequest {} none)],
        [(sampleChange1, some (.num 1)), (sampleChange2, some (.num 2))],
        [], .done, some (.num 5)⟩ := by
  have h := (normal_mode_batch sampleParse {} (fun _ => 0) none batchTwo5
    (by decide)).1
  rw [h]
  decide

/-- The `limit` option always reaches the query string. -/
theorem limit_mem_base (o : CouchDBChangesOptions) (k : Int)
    (hk : o.limit = some k) :
    ("limit", toString k) ∈ buildQueryBase o := by
  simp [buildQueryBase, optEntry, hk]

/-- Membership of foreign keys survives a `searchParams.set`. -/
theorem mem_searchParamsSet_of_ne (p : String × String)
    (q : List (String × String)) (k v : String) (hp : p ∈ q)
    (hne : ¬ p.1 = k) : p ∈ searchParamsSet q k v := by
  induction q with
  | nil => simp at hp
  | cons a rest ih =>
    rcases a with ⟨ak, av⟩
    rcases List.mem_cons.mp hp with h1 | hp'
    · subst h1
      have hak : ¬ ak = k := hne
      simp only [searchParamsSet, hak, if_false]
      exact List.mem_cons_self _ _
    · by_cases h : ak = k
      · simp only [searchParamsSet, h, if_true]
        refine List.mem_cons_of_mem _ ?_
        exact List.mem_filter.mpr ⟨hp', by simpa using hne⟩
      · simp only [searchParamsSet, h, if_false]
        exact List.mem_cons_of_mem _ (ih hp')

/-- C8 (counterexample): with `limit: 1` configured, a (non-conforming)
normal-mode response carrying two records makes the client yield both —
the cap is not enforced client-side, contradicting "yields at most k
records regardless of how many records the server's responses contain". -/
theorem limit_not_enforced_client_side :
    (runFetch sampleParse limitOneCfg (fun _ => 0) false none 0
        [.resp { jsonData := some batchTwo2 }]).yields.length = 2 ∧
    ¬ ((runFetch sampleParse limitOneCfg (fun _ => 0) false none 0
        [.resp { jsonData := some batchTwo2 }]).yields.length ≤ 1) := by
  refine ⟨by decide, by decide⟩

/-- C8 (amended): `limit` is a pure passthrough: whenever `limit = k` is
configured it is serialized into every request's query string (so a
conforming server caps the results), but the client performs no capping of
its own — a normal-mode run yields exactly as many records as the response
contains, `limit` notwithstanding. -/
theorem limit_passthrough (o : CouchDBChangesOptions) (s : Option SeqVal)
    (k : Int) (hk : o.limit = some k) :
    ("limit", toString k) ∈ buildUrl o s ∧
    (∀ parse jit seq0 d, isNormalCfg o = true →
      (runFetch parse o jit false seq0 0
        [.resp { jsonData := some d }]).yields.length = d.results.length) := by
  constructor
  · rcases s with _ | v
    · exact limit_mem_base o k hk
    · exact mem_searchParamsSet_of_ne _ _ _ _ (limit_mem_base o k hk)
        (show ¬ ("limit" : String) = "since" by decide)
  · intro parse jit seq0 d hfeed
    rw [runFetch_normal_single parse o jit seq0 0 d _ [] hfeed rfl rfl]
    simp

/-- C8 (witness): `limit: 5` appears as `limit=5` in the query built with
an overriding cursor. -/
theorem limit_passthrough_witness :
    ("limit", toString (5 : Int)) ∈
      buildUrl { limit := some 5 } (some (.num 9)) :=
  (limit_passthrough { limit := some 5 } (some (.num 9)) 5 rfl).1

/-- The continuous/eventsource branch surfacing a parse failure without
`live`: records parsed before the failure are yielded, then the iteration
ends with that error. -/
theorem runFetch_cont_error (parse : String → Option Change)
    (cfg : CouchDBChangesOptions) (jit : Nat → ℚ) (seq0 : Option SeqVal)
    (rc : Nat) (rest : List ScriptEv) (chunks : List (List Nat))
    (recs : List Change) (l : String)
    (hn : isNormalCfg cfg = false) (hlp : isLongpollCfg cfg = false)
    (hlive : ¬ cfg.live = some true)
    (he : engineRun (isEventsourceCfg cfg) parse false ⟨utf8Init, []⟩ chunks =
      (recs, .errorParse l)) :
    runFetch parse cfg jit false seq0 rc
        [.resp { bodyChunks := some chunks }] =
      ⟨[(seq0, mkRequest cfg seq0)], recs.map (fun c => (c, some c.seq)),
        [], .error (.parseErr l), streamSeq seq0 recs⟩ := by
  simp [runFetch, hn, hlp, hlive, he]

/-- C7: error propagation policy.  (1) An error raised while the overall
token is already signaled is suppressed: the run ends silently with no
further requests.  (2) With `live` disabled, a parse failure in a
continuous/eventsource body surfaces to the consumer as the iteration's
error after all records parsed before it were yielded.  (3) With `live`
disabled a transport error surfaces likewise.  (4) With `live` enabled the
error is routed to the retry path — the counter increments, a backoff is
recorded, and the run continues with the next attempt instead of
surfacing. -/
theorem error_propagation :
    (∀ parse cfg jit seq0 rc rest,
      runFetch parse cfg jit false seq0 rc (.abortReject :: rest) =
        ⟨[(seq0, mkRequest cfg seq0)], [], [], .done, seq0⟩) ∧
    (∀ parse cfg jit seq0 rc chunks recs l,
      isNormalCfg cfg = false → isLongpollCfg cfg = false →
      ¬ cfg.live = some true →
      engineRun (isEventsourceCfg cfg) parse false ⟨utf8Init, []⟩ chunks =
        (recs, .errorParse l) →
      runFetch parse cfg jit false seq0 rc
          [.resp { bodyChunks := some chunks }] =
        ⟨[(seq0, mkRequest cfg seq0)], recs.map (fun c => (c, some c.seq)),
          [], .error (.parseErr l), streamSeq seq0 recs⟩) ∧
    (∀ parse cfg jit seq0 rc m rest, ¬ cfg.live = some true →
      runFetch parse cfg jit false seq0 rc (.netError m :: rest) =
        ⟨[(seq0, mkRequest cfg seq0)], [], [], .error (.net m), seq0⟩) ∧
    (∀ parse cfg jit seq0 rc m rest, cfg.live = some true →
      runFetch parse cfg jit false seq0 rc (.netError m :: rest) =
        withStep (seq0, mkRequest cfg seq0) []
          (some (rc + 1, retryDelay (rc + 1) (jit (rc + 1))))
          (runFetch parse cfg jit false seq0 (rc + 1) rest)) := by
  refine ⟨?_, ?_, ?_, ?_⟩
  · intro parse cfg jit seq0 rc rest
    rfl
  · intro parse cfg jit seq0 rc chunks recs l hn hlp hlive he
    exact runFetch_cont_error parse cfg jit seq0 rc [] chunks recs l hn hlp
      hlive he
  · intro parse cfg jit seq0 rc m rest hlive
    simp [runFetch, hlive]
  · intro parse cfg jit seq0 rc m rest hlive
    simp [runFetch, hlive]

/- The C7 witness follows after the chunk-invariance development, which
provides the evaluation route for `engineRun`. -/

/-- C10: every way an iteration ends aborts the instance's controller
(the `finally` of the async iterator), the flag never resets, and a
subsequent iteration of the same instance — including one constructed with
a caller-supplied controller — runs under an aborted token, so it issues no
requests and yields no records, ending immediately. -/
theorem iteration_end_aborts_controller :
    (∀ parse cfg jit ab evs, (iterate parse cfg jit ab evs).2 = true) ∧
    (∀ parse cfg jit evs parse2 jit2 evs2 cfg2,
      (iterate parse2 cfg2 jit2
          (iterate parse cfg jit (initAborted none) evs).2 evs2).1 =
        ⟨[], [], [], .done, none⟩) := by
  constructor
  · intro parse cfg jit ab evs
    rfl
  · intro parse cfg jit evs parse2 jit2 evs2 cfg2
    show (runFetch parse2 cfg2 jit2 true none 0 evs2, _).1 = _
    cases evs2 <;> rfl

/-! ### Chunk-invariance development (C2) -/

/-- Incremental decoding composes over concatenation: the decoder is a
byte-at-a-time state machine. -/
theorem utf8Decode_append (s : Utf8State) (a b : List Nat) :
    utf8Decode s (a ++ b) =
      ((utf8Decode (utf8Decode s a).1 b).1,
        (utf8Decode s a).2 ++ (utf8Decode (utf8Decode s a).1 b).2) := by
  induction a generalizing s with
  | nil => simp [utf8Decode]
  | cons x xs ih =>
    simp only [List.cons_append, utf8Decode]
    rcases h : utf8Step s x with ⟨s1, cs⟩
    simp [ih s1, List.append_assoc]

/-- A found newline index is within the buffer. -/
theorem nlIdx_lt : ∀ {l : List Char} {i : Nat}, nlIdx l = some i → i < l.length := by
  intro l
  induction l with
  | nil => intro i h; simp [nlIdx] at h
  | cons c cs ih =>
    intro i h
    simp only [nlIdx] at h
    split at h
    · cases h; simp
    · cases hn : nlIdx cs with
      | none => rw [hn] at h; simp at h
      | some j =>
        rw [hn] at h
        simp only [Option.map_some'] at h
        cases h
        simpa using Nat.succ_lt_succ (ih hn)

/-- No newline index means no newline character. -/
theorem nlIdx_none : ∀ {l : List Char}, nlIdx l = none → '\n' ∉ l := by
  intro l
  induction l with
  | nil => intro _ h; simp at h
  | cons c cs ih =>
    intro h hmem
    simp only [nlIdx] at h
    split at h
    · simp at h
    · rcases List.mem_cons.mp hmem with rfl | hmem'
      · simp_all
      · cases hn : nlIdx cs with
        | none => exact ih hn hmem'
        | some j => rw [hn] at h; simp at h

/-- The first newline index decomposes the buffer: nothing before it is a
newline and the buffer splits there. -/
theorem nlIdx_decomp : ∀ {l : List Char} {i : Nat}, nlIdx l = some i →
    '\n' ∉ l.take i ∧ l = l.take i ++ '\n' :: l.drop (i + 1) := by
  intro l
  induction l with
  | nil => intro i h; simp [nlIdx] at h
  | cons c cs ih =>
    intro i h
    by_cases hc : c = '\n'
    · subst hc
      simp only [nlIdx, if_pos rfl] at h
      cases h
      simp
    · simp only [nlIdx, hc, if_false] at h
      cases hn : nlIdx cs with
      | none => rw [hn] at h; simp at h
      | some j =>
        rw [hn] at h
        simp only [Option.map_some'] at h
        cases h
        obtain ⟨h1, h2⟩ := ih hn
        refine ⟨?_, ?_⟩
        · intro hmem
          simp only [List.take_succ_cons] at hmem
          rcases List.mem_cons.mp hmem with heq | hmem'
          · exact hc heq.symm
          · exact h1 hmem'
        · simp only [List.take_succ_cons, List.drop_succ_cons, List.cons_append]
          exact congrArg (c :: ·) h2

/-- A newline-free buffer has no complete line. -/
theorem splitNl_no_nl : ∀ {l : List Char}, '\n' ∉ l → splitNl l = ([], l) := by
  intro l
  induction l with
  | nil => intro _; rfl
  | cons c cs ih =>
    intro h
    have hc : ¬ c = '\n' := fun hcc => h (by simp [hcc])
    have hcs : '\n' ∉ cs := fun hm => h (List.mem_cons_of_mem _ hm)
    simp [splitNl, ih hcs, hc]

/-- Splitting a buffer that starts with a newline-free complete line. -/
theorem splitNl_line : ∀ {A : List Char}, '\n' ∉ A → ∀ B : List Char,
    splitNl (A ++ '\n' :: B) = (A :: (splitNl B).1, (splitNl B).2) := by
  intro A
  induction A with
  | nil => intro _ B; simp [splitNl]
  | cons c cs ih =>
    intro h B
    have hc : ¬ c = '\n' := fun hcc => h (by simp [hcc])
    have hcs : '\n' ∉ cs := fun hm => h (List.mem_cons_of_mem _ hm)
    simp [splitNl, ih hcs B, hc]

/-- Appending on the right moves inside the remainder of `joinLines`. -/
theorem joinLines_append : ∀ (ls : List (List Char)) (r y : List Char),
    joinLines ls r ++ y = joinLines ls (r ++ y) := by
  intro ls
  induction ls with
  | nil => intro r y; rfl
  | cons l ls ih => intro r y; simp [joinLines, ih, List.append_assoc]

/-- Splitting a joined buffer recovers the newline-free lines. -/
theorem splitNl_join : ∀ {ls : List (List Char)}, (∀ x ∈ ls, '\n' ∉ x) →
    ∀ r : List Char,
      splitNl (joinLines ls r) = (ls ++ (splitNl r).1, (splitNl r).2) := by
  intro ls
  induction ls with
  | nil => intro _ r; simp [joinLines]
  | cons l ls ih =>
    intro h r
    have hl : '\n' ∉ l := h l (List.mem_cons_self _ _)
    have hls : ∀ x ∈ ls, '\n' ∉ x := fun x hx => h x (List.mem_cons_of_mem _ hx)
    simp [joinLines, splitNl_line hl, ih hls r]

/-- `splitNl` produces newline-free lines and remainder, and joining them
recovers the buffer. -/
theorem splitNl_parts : ∀ l : List Char,
    (∀ x ∈ (splitNl l).1, '\n' ∉ x) ∧ '\n' ∉ (splitNl l).2 ∧
      joinLines (splitNl l).1 (splitNl l).2 = l := by
  intro l
  induction l with
  | nil => exact ⟨by simp [splitNl], by simp [splitNl], rfl⟩
  | cons c cs ih =>
    obtain ⟨h1, h2, h3⟩ := ih
    by_cases hc : c = '\n'
    · subst hc
      refine ⟨?_, h2, ?_⟩
      · intro x hx
        simp only [splitNl, if_pos rfl] at hx
        rcases List.mem_cons.mp hx with rfl | hx'
        · simp
        · exact h1 x hx'
      · simp [splitNl, joinLines, h3]
    · rcases hs : splitNl cs with ⟨ls, r⟩
      rw [hs] at h1 h2 h3
      cases ls with
      | nil =>
        refine ⟨by simp [splitNl, hs, hc], ?_, ?_⟩
        · simp only [splitNl, hs, hc, if_false]
          intro hmem
          rcases List.mem_cons.mp hmem with rfl | hmem'
          · exact hc rfl
          · exact h2 hmem'
        · simp only [splitNl, hs, hc, if_false, joinLines] at h3 ⊢
          simpa [joinLines] using congrArg (c :: ·) h3
      | cons l0 ls' =>
        refine ⟨?_, ?_, ?_⟩
        · intro x hx
          simp only [splitNl, hs, hc, if_false] at hx
          rcases List.mem_cons.mp hx with rfl | hx'
          · intro hmem
            rcases List.mem_cons.mp hmem with rfl | hmem'
            · exact hc rfl
            · exact h1 l0 (List.mem_cons_self _ _) hmem'
          · exact h1 x (List.mem_cons_of_mem _ hx')
        · simpa [splitNl, hs, hc] using h2
        · simp only [splitNl, hs, hc, if_false, joinLines] at h3 ⊢
          simpa [joinLines] using congrArg (c :: ·) h3

/-- Splitting distributes over concatenation: the left part's lines come
first, and its remainder is re-split together with the right part. -/
theorem splitNl_append (X Y : List Char) :
    splitNl (X ++ Y) =
      ((splitNl X).1 ++ (splitNl ((splitNl X).2 ++ Y)).1,
        (splitNl ((splitNl X).2 ++ Y)).2) := by
  obtain ⟨h1, h2, h3⟩ := splitNl_parts X
  conv_lhs => rw [← h3, joinLines_append]
  rw [splitNl_join h1]

/-- The parse-error guard `buffer.indexOf("\n", newlineIndex)` is truthy
(non-zero) whenever the erroring line was non-empty (index at least 1). -/
theorem jsIndexOfFrom_ne_zero (l : List Char) (pos : Nat) (h : 1 ≤ pos) :
    jsIndexOfFrom l pos ≠ 0 := by
  unfold jsIndexOfFrom
  rcases nlIdx (l.drop pos) with _ | j
  · simp
  · simp only [ne_eq]
    intro hc
    have : pos + j = 0 := by exact_mod_cast hc
    omega


/-- The faithful newline loop equals per-line processing of the split
buffer: complete lines are handled by `runLines` and the trailing partial
line is kept for the next read. -/
theorem processBuffer_eq_runLines (isES : Bool) (parse : String → Option Change)
    (ab done : Bool) : ∀ (n : Nat) (buf : List Char), buf.length ≤ n →
    processBuffer isES parse ab done buf =
      ((runLines isES parse ab done (splitNl buf).1).1,
        match (runLines isES parse ab done (splitNl buf).1).2 with
        | none => LineStep.more (splitNl buf).2
        | some h => LineStep.stop h) := by
  intro n
  induction n with
  | zero =>
    intro buf hlen
    have hb : buf = [] := List.length_eq_zero.mp (Nat.le_zero.mp hlen)
    subst hb
    rw [processBuffer]
    simp [nlIdx, splitNl, runLines]
  | succ n ih =>
    intro buf hlen
    rw [processBuffer]
    cases hnl : nlIdx buf with
    | none =>
      rw [splitNl_no_nl (nlIdx_none hnl)]
      simp [runLines]
    | some i =>
      dsimp only
      obtain ⟨htake, hdecomp⟩ := nlIdx_decomp hnl
      have hlt := nlIdx_lt hnl
      have hlen' : (buf.drop (i + 1)).length ≤ n := by
        simp only [List.length_drop]
        omega
      have hsplit : splitNl buf =
          (buf.take i :: (splitNl (buf.drop (i + 1))).1,
            (splitNl (buf.drop (i + 1))).2) := by
        conv_lhs => rw [hdecomp]
        exact splitNl_line htake _
      rw [hsplit]
      simp only [ih _ hlen', runLines]
      rcases hr : runLines isES parse ab done
          (splitNl (List.drop (i + 1) buf)).1 with ⟨rs2, h2⟩
      by_cases hab : ab = true
      · simp only [if_pos hab]
      · simp only [if_neg hab]
        by_cases hev : (isES && "event:".toList.isPrefixOf
            (jsTrim (List.take i buf))) = true
        · simp only [if_pos hev, hr]
        · simp only [if_neg hev]
          by_cases hdat : (isES && "data:".toList.isPrefixOf
              (jsTrim (List.take i buf))) = true
          · simp only [if_pos hdat]
            by_cases hblank : jsTrim ((jsTrim (List.take i buf)).drop 5) = []
            · simp only [if_pos hblank]
              by_cases hdone : done = true
              · simp only [if_pos hdone]
              · simp only [if_neg hdone, hr]
            · simp only [if_neg hblank]
              cases hp : parse (String.mk ((jsTrim (List.take i buf)).drop 5)) with
              | some c => simp only [hp, hr]
              | none =>
                have hi1 : 1 ≤ i := by
                  rcases Nat.eq_zero_or_pos i with hz | hpos
                  · subst hz
                    exfalso
                    apply hblank
                    have h0 : jsTrim (List.take 0 buf) = ([] : List Char) := by
                      simp [jsTrim]
                    rw [h0]
                    simp [jsTrim]
                  · exact hpos
                have hg := jsIndexOfFrom_ne_zero (List.drop (i + 1) buf) i hi1
                simp only [hp, if_pos hg]
          · simp only [if_neg hdat]
            by_cases hblank : jsTrim (jsTrim (List.take i buf)) = []
            · simp only [if_pos hblank]
              by_cases hdone : done = true
              · simp only [if_pos hdone]
              · simp only [if_neg hdone, hr]
            · simp only [if_neg hblank]
              cases hp : parse (String.mk (jsTrim (List.take i buf))) with
              | some c => simp only [hp, hr]
              | none =>
                have hi1 : 1 ≤ i := by
                  rcases Nat.eq_zero_or_pos i with hz | hpos
                  · subst hz
                    exfalso
                    apply hblank
                    simp [jsTrim]
                  · exact hpos
                have hg := jsIndexOfFrom_ne_zero (List.drop (i + 1) buf) i hi1
                simp only [hp, if_pos hg]

/-- Per-line processing distributes over list concatenation, stopping early
if the first part halts. -/
theorem runLines_append (isES : Bool) (parse : String → Option Change)
    (ab done : Bool) : ∀ ls1 ls2 : List (List Char),
    runLines isES parse ab done (ls1 ++ ls2) =
      (match runLines isES parse ab done ls1 with
        | (rs, none) =>
          (rs ++ (runLines isES parse ab done ls2).1,
            (runLines isES parse ab done ls2).2)
        | (rs, some h) => (rs, some h)) := by
  intro ls1
  induction ls1 with
  | nil =>
    intro ls2
    simp [runLines]
  | cons l0 ls ih =>
    intro ls2
    by_cases hab : ab = true
    · simp [runLines, hab]
    · simp only [List.cons_append, runLines, if_neg hab, List.append_eq]
      by_cases hev : (isES && "event:".toList.isPrefixOf (jsTrim l0)) = true
      · simp only [if_pos hev, ih]
      · simp only [if_neg hev]
        by_cases hblank : jsTrim (if (isES && "data:".toList.isPrefixOf
            (jsTrim l0)) = true then (jsTrim l0).drop 5 else jsTrim l0) = []
        · simp only [if_pos hblank]
          by_cases hdone : done = true
          · simp only [if_pos hdone]
          · simp only [if_neg hdone, ih]
        · simp only [if_neg hblank]
          cases hp : parse (String.mk (if (isES && "data:".toList.isPrefixOf
              (jsTrim l0)) = true then (jsTrim l0).drop 5 else jsTrim l0)) with
          | some c =>
            simp only [hp, ih]
            rcases hsub : runLines isES parse ab done ls with ⟨rs, h⟩
            cases h <;> simp [hsub]
          | none => simp only [hp]

/-- Merging two adjacent reads does not change the engine's output: the
loop drains all complete lines either way, and the pending decoder state
and partial line carry over. -/
theorem engineRun_merge (isES : Bool) (parse : String → Option Change)
    (ab : Bool) (st : EngSt) (a b : List Nat) (cs : List (List Nat)) :
    engineRun isES parse ab st (a :: b :: cs) =
      engineRun isES parse ab st ((a ++ b) :: cs) := by
  by_cases hab : ab = true
  · simp [engineRun, hab]
  · rw [Bool.not_eq_true] at hab
    subst hab
    have hpb : ∀ (done : Bool) (buf : List Char),
        processBuffer isES parse false done buf =
          ((runLines isES parse false done (splitNl buf).1).1,
            match (runLines isES parse false done (splitNl buf).1).2 with
            | none => LineStep.more (splitNl buf).2
            | some h => LineStep.stop h) :=
      fun done buf =>
        processBuffer_eq_runLines isES parse false done buf.length buf le_rfl
    rcases hda : utf8Decode st.dec a with ⟨d1, o1⟩
    rcases hdb : utf8Decode d1 b with ⟨d2, o2⟩
    have hdec : utf8Decode st.dec (a ++ b) = (d2, o1 ++ o2) := by
      simp [utf8Decode_append, hda, hdb]
    rcases hs1 : splitNl (st.buffer ++ o1) with ⟨L1, R1⟩
    rcases hs2 : splitNl (R1 ++ o2) with ⟨L2, R2⟩
    have hsX : splitNl (st.buffer ++ o1 ++ o2) = (L1 ++ L2, R2) := by
      rw [splitNl_append (st.buffer ++ o1) o2, hs1]
      simp only [hs2]
    rcases hr1 : runLines isES parse false false L1 with ⟨rs1, h1⟩
    cases h1 with
    | some h =>
      have hL : engineRun isES parse false st (a :: b :: cs) = (rs1, h) := by
        simp only [engineRun, Bool.false_eq_true, if_false, hda, hpb, hs1, hr1]
      have hR : engineRun isES parse false st ((a ++ b) :: cs) = (rs1, h) := by
        simp only [engineRun, Bool.false_eq_true, if_false, hdec, hpb,
          ← List.append_assoc, hsX, runLines_append, hr1]
      rw [hL, hR]
    | none =>
      rcases hr2 : runLines isES parse false false L2 with ⟨rs2, h2⟩
      cases h2 with
      | some h =>
        have hL : engineRun isES parse false st (a :: b :: cs) =
            (rs1 ++ rs2, h) := by
          simp only [engineRun, Bool.false_eq_true, if_false, hda, hdb, hpb,
            hs1, hs2, hr1, hr2]
        have hR : engineRun isES parse false st ((a ++ b) :: cs) =
            (rs1 ++ rs2, h) := by
          simp only [engineRun, Bool.false_eq_true, if_false, hdec, hpb,
            ← List.append_assoc, hsX, runLines_append, hr1, hr2]
        rw [hL, hR]
      | none =>
        have hL : engineRun isES parse false st (a :: b :: cs) =
            (rs1 ++ (rs2 ++ (engineRun isES parse false ⟨d2, R2⟩ cs).1),
              (engineRun isES parse false ⟨d2, R2⟩ cs).2) := by
          simp only [engineRun, Bool.false_eq_true, if_false, hda, hdb, hpb,
            hs1, hs2, hr1, hr2]
        have hR : engineRun isES parse false st ((a ++ b) :: cs) =
            ((rs1 ++ rs2) ++ (engineRun isES parse false ⟨d2, R2⟩ cs).1,
              (engineRun isES parse false ⟨d2, R2⟩ cs).2) := by
          simp only [engineRun, Bool.false_eq_true, if_false, hdec, hpb,
            ← List.append_assoc, hsX, runLines_append, hr1, hr2]
        rw [hL, hR, List.append_assoc]

/-- Any non-empty chunk list is equivalent to the single chunk carrying all
its bytes. -/
theorem engineRun_concat (isES : Bool) (parse : String → Option Change) :
    ∀ (cs : List (List Nat)) (a : List Nat) (st : EngSt),
    engineRun isES parse false st (a :: cs) =
      engineRun isES parse false st [a ++ cs.flatten] := by
  intro cs
  induction cs with
  | nil =>
    intro a st
    simp
  | cons b cs ih =>
    intro a st
    rw [engineRun_merge, ih (a ++ b) st]
    simp [List.append_assoc]

/-- An empty read is a no-op from the initial state. -/
theorem engineRun_nil_chunk (isES : Bool) (parse : String → Option Change) :
    engineRun isES parse false ⟨utf8Init, []⟩ [([] : List Nat)] =
      engineRun isES parse false ⟨utf8Init, []⟩ [] := by
  have h0 : processBuffer isES parse false false [] = ([], .more []) := by
    rw [processBuffer]
    rfl
  simp [engineRun, utf8Decode, h0]

/-- C2: the continuous/eventsource parser is chunking-invariant: any two
read-chunk decompositions of the same byte stream — including splits inside
a line or inside a multi-byte UTF-8 character — yield the identical record
sequence and the identical termination behaviour, for any line parser and
either framing. -/
theorem chunking_invariance (isES : Bool) (parse : String → Option Change)
    (c1 c2 : List (List Nat)) (h : c1.flatten = c2.flatten) :
    continuousRun isES parse c1 = continuousRun isES parse c2 := by
  have hnil : ∀ (cs : List (List Nat)), cs.flatten = [] →
      continuousRun isES parse cs = continuousRun isES parse [] := by
    intro cs hcs
    cases cs with
    | nil => rfl
    | cons a cs' =>
      show engineRun isES parse false ⟨utf8Init, []⟩ (a :: cs') = _
      rw [engineRun_concat]
      have ha : a ++ cs'.flatten = [] := by simpa using hcs
      rw [ha]
      exact engineRun_nil_chunk isES parse
  cases c1 with
  | nil =>
    cases c2 with
    | nil => rfl
    | cons b cs2 =>
      exact (hnil (b :: cs2) (by simpa using h.symm)).symm
  | cons a cs1 =>
    cases c2 with
    | nil => exact hnil _ (by simpa using h)
    | cons b cs2 =>
      show engineRun isES parse false ⟨utf8Init, []⟩ _ = engineRun _ _ _ _ _
      have : a ++ cs1.flatten = b ++ cs2.flatten := by simpa using h
      conv_rhs => rw [engineRun_concat isES parse cs2 b]
      rw [engineRun_concat isES parse cs1 a, this]

/-- C2 (witness): splitting a stream between the bytes of the multi-byte
character `€` and mid-line produces the same output as the unsplit
stream. -/
theorem chunking_invariance_witness :
    continuousRun false sampleParse
        [[0xE2], [0x82, 0xAC, 0x0A, 0x41], [0x0A]] =
      continuousRun false sampleParse [[0xE2, 0x82, 0xAC, 0x0A, 0x41, 0x0A]] :=
  chunking_invariance false sampleParse _ _ (by decide)

/-- The faithful engine equals its structural twin, chunk by chunk. -/
theorem engineRun_eq_engineRunL (isES : Bool) (parse : String → Option Change)
    (ab : Bool) : ∀ (cs : List (List Nat)) (st : EngSt),
    engineRun isES parse ab st cs = engineRunL isES parse ab st cs := by
  intro cs
  induction cs with
  | nil =>
    intro st
    simp only [engineRun, engineRunL]
    by_cases hab : ab = true
    · simp [hab]
    · simp only [if_neg hab]
      rw [processBuffer_eq_runLines isES parse ab true st.buffer.length
        st.buffer le_rfl]
      rcases hrl : runLines isES parse ab true (splitNl st.buffer).1
          with ⟨rs, h⟩
      cases h <;> dsimp only
  | cons c cs ih =>
    intro st
    simp only [engineRun, engineRunL]
    by_cases hab : ab = true
    · simp [hab]
    · simp only [if_neg hab]
      rcases hdc : utf8Decode st.dec c with ⟨d1, o1⟩
      dsimp only
      rw [processBuffer_eq_runLines isES parse ab false
        (st.buffer ++ o1).length (st.buffer ++ o1) le_rfl]
      rcases hrl : runLines isES parse ab false (splitNl (st.buffer ++ o1)).1
          with ⟨rs, h⟩
      cases h <;> dsimp only
      rw [ih]

/-- C7 (witness): with `live` unset, a continuous body of one valid line
`A` followed by a malformed line `BAD` yields exactly one record and then
ends the iteration with the parse error for `BAD`. -/
theorem error_propagation_witness :
    runFetch sampleParse contCfg (fun _ => 0) false none 0
        [.resp { bodyChunks := some [[65, 10, 66, 65, 68, 10]] }] =
      ⟨[(none, mkRequest contCfg none)], [(sampleChange1, some (.num 1))], [],
        .error (.parseErr "BAD"), some (.num 1)⟩ := by
  have he : engineRun (isEventsourceCfg contCfg) sampleParse false
      ⟨utf8Init, []⟩ [[65, 10, 66, 65, 68, 10]] =
        ([sampleChange1], .errorParse "BAD") := by
    rw [engineRun_eq_engineRunL]
    decide
  have h := error_propagation.2.1 sampleParse contCfg (fun _ => 0) none 0
    [[65, 10, 66, 65, 68, 10]] [sampleChange1] "BAD" (by decide) (by decide)
    (by decide) he
  rw [h]
  decide

end CouchDB
